import Mathlib

/-
Verification of the traefik-webfinger middleware (package traefik_webfinger).

The embedding models strings as lists of characters (`Str`), Go maps as
association lists with unique lookup by first match, and the HTTP surface as
pure data: a `Request` carries method, path, parsed query, headers and body;
a `Response` carries status, headers and a body.  The body of a served JRD
document is kept structured (`Body.jrd`), standing for the JSON serialization
of exactly that descriptor; all other bodies are plain text.  The next
handler in the chain is a function from requests to responses.
-/

/-- Strings, modelled as lists of characters (Go strings under byte/char
equivalence for the ASCII prefixes involved). -/
abbrev Str := List Char

/-- Embeds a Lean string literal as a character list. -/
def strLit (s : String) : Str := s.data

/-- WebFingerLink represents a link in the WebFinger response. -/
structure WebFingerLink where
  rel : Str
  type : Str
  href : Str
  titles : List (Str × Str)
  properties : List (Str × Str)
deriving DecidableEq

/-- WebFingerResponse represents the WebFinger JSON response (RFC 7033). -/
structure WebFingerResponse where
  subject : Str
  aliases : List Str
  links : List WebFingerLink
deriving DecidableEq

/-- Config defines the plugin configuration structure. -/
structure Config where
  domain : Str
  resources : List (Str × WebFingerResponse)
  passthrough : Bool

/-- CreateConfig creates a new default plugin configuration. -/
def CreateConfig : Config :=
  { domain := [], resources := [], passthrough := false }

/-- An HTTP request: method, URL path, parsed query, headers, body. -/
structure Request where
  method : Str
  path : Str
  query : List (Str × Str)
  headers : List (Str × Str)
  body : Str

/-- A response body: plain text, or the JSON serialization of a descriptor. -/
inductive Body where
  | text (s : Str)
  | jrd (r : WebFingerResponse)
deriving DecidableEq

/-- An HTTP response: status code, headers, body. -/
structure Response where
  status : Nat
  headers : List (Str × Str)
  body : Body
deriving DecidableEq

/-- WebFinger is the middleware plugin implementation. -/
structure WebFinger where
  next : Request → Response
  name : Str
  domain : Str
  resources : List (Str × WebFingerResponse)
  passthrough : Bool

/-- The static construction errors of the plugin. -/
inductive ConfigError where
  | missingDomain
  | resourceDomainMismatch (resource : Str)
  | missingSubject (resource : Str)
  | missingRel (resource : Str)
deriving DecidableEq

/-- Splits a list at the first occurrence of `sep`: `some (before, after)`
when `sep` occurs, `none` otherwise. -/
def splitAtFirst (sep : Char) : Str → Option (Str × Str)
  | [] => none
  | c :: cs =>
    if c = sep then some ([], cs)
    else Option.map (fun p => (c :: p.1, p.2)) (splitAtFirst sep cs)

/-- strings.SplitN with limit 2: `[before, after]` around the first `sep`,
or `[s]` when `sep` does not occur. -/
def splitN2 (s : Str) (sep : Char) : List Str :=
  match splitAtFirst sep s with
  | none => [s]
  | some (a, b) => [a, b]

/-- strings.Contains: whether `sub` occurs in `s` as a contiguous run. -/
def goContains : Str → Str → Bool
  | [], sub => sub.isEmpty
  | c :: rest, sub => sub.isPrefixOf (c :: rest) || goContains rest sub

def acctPfx : Str := ['a', 'c', 'c', 't', ':']

def httpsPfx : Str := ['h', 't', 't', 'p', 's', ':', '/', '/']

def mailtoPfx : Str := ['m', 'a', 'i', 'l', 't', 'o', ':']

/-- isResourceForDomain checks if the resource belongs to the configured
domain. -/
def isResourceForDomain (resource domain : Str) : Bool :=
  if acctPfx.isPrefixOf resource then
    let parts := splitN2 (resource.drop acctPfx.length) '@'
    decide (parts.length = 2) && decide (parts.getD 1 [] = domain)
  else if httpsPfx.isPrefixOf resource then
    goContains (resource.drop httpsPfx.length) domain
  else if mailtoPfx.isPrefixOf resource then
    let parts := splitN2 (resource.drop mailtoPfx.length) '@'
    decide (parts.length = 2) && decide (parts.getD 1 [] = domain)
  else
    goContains resource domain

/-- normalizeResource returns a normalized version of the resource
identifier (it returns the resource as-is). -/
def normalizeResource (resource : Str) : Str :=
  resource

/-- url.Values.Get: the first value of the key, empty when absent. -/
def queryGet : List (Str × Str) → Str → Str
  | [], _ => []
  | (k, v) :: rest, key => if k = key then v else queryGet rest key

/-- Go map lookup on the resources table (keys unique, first match). -/
def resFind : List (Str × WebFingerResponse) → Str → Option WebFingerResponse
  | [], _ => none
  | (k, v) :: rest, key => if k = key then some v else resFind rest key

def wkPath : Str := strLit "/.well-known/webfinger"

def methodGet : Str := strLit "GET"

def resourceKey : Str := strLit "resource"

def contentTypeKey : Str := strLit "Content-Type"

def jrdContentType : Str := strLit "application/jrd+json"

/-- http.Error: plain-text error reply with the given status code. -/
def httpError (msg : Str) (code : Nat) : Response :=
  { status := code,
    headers := [(contentTypeKey, strLit "text/plain; charset=utf-8"),
                (strLit "X-Content-Type-Options", strLit "nosniff")],
    body := Body.text (msg ++ strLit "\n") }

/-- ServeHTTP implements the http.Handler interface. -/
def ServeHTTP (w : WebFinger) (req : Request) : Response :=
  if !(wkPath.isPrefixOf req.path) then
    w.next req
  else if req.method ≠ methodGet then
    httpError (strLit "Method not allowed") 405
  else
    let resource := queryGet req.query resourceKey
    if resource = [] then
      httpError (strLit "Resource parameter is required") 400
    else if !(isResourceForDomain resource w.domain) then
      if w.passthrough then w.next req
      else httpError (strLit "Resource not found") 404
    else
      match resFind w.resources resource with
      | some response =>
        { status := 200,
          headers := [(contentTypeKey, jrdContentType)],
          body := Body.jrd response }
      | none =>
        if w.passthrough then w.next req
        else httpError (strLit "Resource not found") 404

/-- The per-entry validation loop of New over the resources table. -/
def validateResources (domain : Str) :
    List (Str × WebFingerResponse) → Option ConfigError
  | [] => none
  | (resource, response) :: rest =>
    if !(isResourceForDomain resource domain) then
      some (ConfigError.resourceDomainMismatch resource)
    else if response.subject = [] then
      some (ConfigError.missingSubject resource)
    else if response.links.any (fun l => l.rel.isEmpty) then
      some (ConfigError.missingRel resource)
    else validateResources domain rest

/-- New creates a new WebFinger middleware plugin. -/
def New (next : Request → Response) (config : Config) (name : Str) :
    Except ConfigError WebFinger :=
  if config.domain = [] then Except.error ConfigError.missingDomain
  else
    match validateResources config.domain config.resources with
    | some e => Except.error e
    | none =>
      Except.ok
        { next := next, name := name, domain := config.domain,
          resources := config.resources, passthrough := config.passthrough }

def aliceKey : Str := strLit "acct:alice@example.com"

/-- The profile-page link of the reference configuration. -/
def linkProfile : WebFingerLink :=
  { rel := strLit "http://webfinger.net/rel/profile-page",
    type := strLit "text/html",
    href := strLit "https://example.com/alice",
    titles := [], properties := [] }

/-- The self link of the reference configuration. -/
def linkSelf : WebFingerLink :=
  { rel := strLit "self",
    type := strLit "application/activity+json",
    href := strLit "https://example.com/users/alice",
    titles := [], properties := [] }

/-- The descriptor configured for alice in the reference scenario. -/
def descAlice : WebFingerResponse :=
  { subject := aliceKey,
    aliases := [strLit "https://example.com/alice",
                strLit "https://example.com/users/alice"],
    links := [linkProfile, linkSelf] }

/-- The backend handler of the reference scenario. -/
def backendNext : Request → Response :=
  fun _ =>
    { status := 200,
      headers := [(contentTypeKey, strLit "application/json")],
      body := Body.text (strLit "\x7b\"message\":\"backend response\"\x7d") }

/-- The reference middleware instance, with the passthrough flag given. -/
def mkWF (p : Bool) : WebFinger :=
  { next := backendNext, name := strLit "webfinger-test",
    domain := strLit "example.com",
    resources := [(aliceKey, descAlice)], passthrough := p }

/-- A GET discovery request for the given resource identifier. -/
def reqFor (resource : String) : Request :=
  { method := methodGet, path := wkPath,
    query := [(resourceKey, strLit resource)], headers := [], body := [] }

/-- A GET discovery request with no query at all. -/
def reqNoResource : Request :=
  { method := methodGet, path := wkPath, query := [], headers := [], body := [] }

/-- A POST discovery request. -/
def reqPost : Request :=
  { method := strLit "POST", path := wkPath,
    query := [(resourceKey, aliceKey)], headers := [], body := [] }

/-- A GET request to an unrelated path. -/
def reqOther : Request :=
  { method := methodGet, path := strLit "/some/other/path",
    query := [(strLit "x", strLit "1")], headers := [], body := [] }

/-- The reference valid configuration of the construction tests. -/
def cfgValid : Config :=
  { domain := strLit "example.com",
    resources := [(aliceKey, descAlice)], passthrough := false }

/-- The handler New builds from the reference valid configuration. -/
def wValid : WebFinger :=
  { next := backendNext, name := strLit "test",
    domain := cfgValid.domain, resources := cfgValid.resources,
    passthrough := cfgValid.passthrough }

theorem splitAtFirst_eq_none_iff (sep : Char) (s : Str) :
    splitAtFirst sep s = none ↔ sep ∉ s := by
  induction s with
  | nil => simp [splitAtFirst]
  | cons c cs ih =>
    by_cases h : c = sep
    · subst h
      simp [splitAtFirst]
    · simp only [splitAtFirst, if_neg h, Option.map_eq_none', ih, List.mem_cons,
        not_or]
      exact ⟨fun hn => ⟨fun hh => h hh.symm, hn⟩, fun hn => hn.2⟩

theorem splitAtFirst_eq_some_iff (sep : Char) (s : Str) :
    ∀ a b : Str, splitAtFirst sep s = some (a, b) ↔ s = a ++ sep :: b ∧ sep ∉ a := by
  induction s with
  | nil =>
    intro a b
    simp [splitAtFirst]
  | cons c cs ih =>
    intro a b
    by_cases h : c = sep
    · subst h
      cases a with
      | nil => simp [splitAtFirst]
      | cons x a' =>
        constructor
        · intro hsome
          simp [splitAtFirst] at hsome
        · rintro ⟨heq, hmem⟩
          rw [List.cons_append] at heq
          injection heq with h1 _
          exact absurd (by rw [h1]; exact List.mem_cons_self x a') hmem
    · cases a with
      | nil =>
        constructor
        · intro hsome
          simp only [splitAtFirst, if_neg h, Option.map_eq_some'] at hsome
          obtain ⟨p, -, hp⟩ := hsome
          simp at hp
        · rintro ⟨heq, -⟩
          rw [List.nil_append] at heq
          injection heq with h1 _
          exact absurd h1 h
      | cons x a' =>
        simp only [splitAtFirst, if_neg h, Option.map_eq_some']
        constructor
        · rintro ⟨⟨pa, pb⟩, hsplit, hp⟩
          injection hp with h1 h2
          injection h1 with hcx hpa
          obtain ⟨hcs, hsep⟩ := (ih pa pb).mp hsplit
          subst hcx
          subst hpa
          subst h2
          refine ⟨by rw [List.cons_append, hcs], ?_⟩
          intro hmem
          rcases List.mem_cons.mp hmem with h1 | h1
          · exact h h1.symm
          · exact hsep h1
        · rintro ⟨heq, hmem⟩
          rw [List.cons_append] at heq
          injection heq with hcx hcs
          refine ⟨(a', b), (ih a' b).mpr ⟨hcs, ?_⟩, by rw [hcx]⟩
          exact fun hm => hmem (List.mem_cons.mpr (Or.inr hm))

theorem isPrefixOf_iff_exists (l s : Str) :
    l.isPrefixOf s = true ↔ ∃ t, l ++ t = s := by
  induction l generalizing s with
  | nil => simp [List.isPrefixOf]
  | cons a l ih =>
    cases s with
    | nil => simp [List.isPrefixOf]
    | cons b m =>
      simp only [List.isPrefixOf, Bool.and_eq_true, beq_iff_eq, ih,
        List.cons_append, List.cons_eq_cons]
      constructor
      · rintro ⟨hab, t, ht⟩
        exact ⟨t, hab, ht⟩
      · rintro ⟨t, hab, ht⟩
        exact ⟨hab, t, ht⟩

theorem self_isPrefixOf_append (l t : Str) : l.isPrefixOf (l ++ t) = true :=
  (isPrefixOf_iff_exists l (l ++ t)).mpr ⟨t, rfl⟩

theorem isPrefixOf_false_of_head_ne {a b : Char} (l m : Str) (h : a ≠ b) :
    (a :: l).isPrefixOf (b :: m) = false := by
  simp [List.isPrefixOf, h]

theorem goContains_iff_exists (s sub : Str) :
    goContains s sub = true ↔ ∃ pre post, pre ++ sub ++ post = s := by
  induction s with
  | nil =>
    simp only [goContains, List.isEmpty_iff]
    constructor
    · rintro rfl
      exact ⟨[], [], rfl⟩
    · rintro ⟨pre, post, hp⟩
      rcases List.append_eq_nil.mp hp with ⟨h1, -⟩
      exact (List.append_eq_nil.mp h1).2
  | cons c rest ih =>
    simp only [goContains, Bool.or_eq_true, isPrefixOf_iff_exists, ih]
    constructor
    · rintro (⟨t, ht⟩ | ⟨pre, post, hp⟩)
      · exact ⟨[], t, ht⟩
      · exact ⟨c :: pre, post, by simp [hp]⟩
    · rintro ⟨pre, post, hp⟩
      cases pre with
      | nil =>
        exact Or.inl ⟨post, by simpa using hp⟩
      | cons x pre' =>
        obtain ⟨hx, hrest⟩ := List.cons_eq_cons.mp (by simpa using hp)
        exact Or.inr ⟨pre', post, by simp [hrest]⟩

theorem acctPfx_not_prefixOf_mailto (rest : Str) :
    acctPfx.isPrefixOf (mailtoPfx ++ rest) = false := by
  show (['a', 'c', 'c', 't', ':'] : Str).isPrefixOf
    ((['m', 'a', 'i', 'l', 't', 'o', ':'] : Str) ++ rest) = false
  rw [List.cons_append]
  exact isPrefixOf_false_of_head_ne _ _ (by decide)

theorem httpsPfx_not_prefixOf_mailto (rest : Str) :
    httpsPfx.isPrefixOf (mailtoPfx ++ rest) = false := by
  show (['h', 't', 't', 'p', 's', ':', '/', '/'] : Str).isPrefixOf
    ((['m', 'a', 'i', 'l', 't', 'o', ':'] : Str) ++ rest) = false
  rw [List.cons_append]
  exact isPrefixOf_false_of_head_ne _ _ (by decide)

theorem acctPfx_not_prefixOf_https (rest : Str) :
    acctPfx.isPrefixOf (httpsPfx ++ rest) = false := by
  show (['a', 'c', 'c', 't', ':'] : Str).isPrefixOf
    ((['h', 't', 't', 'p', 's', ':', '/', '/'] : Str) ++ rest) = false
  rw [List.cons_append]
  exact isPrefixOf_false_of_head_ne _ _ (by decide)

theorem splitCheck_iff (rest dom : Str) :
    (decide ((splitN2 rest '@').length = 2) &&
      decide ((splitN2 rest '@').getD 1 [] = dom)) = true ↔
    ∃ u, '@' ∉ u ∧ rest = u ++ '@' :: dom := by
  rcases hsplit : splitAtFirst '@' rest with - | ⟨a, b⟩
  · simp only [splitN2, hsplit]
    constructor
    · intro hfalse
      simp at hfalse
    · rintro ⟨u, -, hrest⟩
      have hnot : ('@' : Char) ∉ rest := (splitAtFirst_eq_none_iff _ _).mp hsplit
      refine absurd ?_ hnot
      rw [hrest]
      exact List.mem_append.mpr (Or.inr (List.mem_cons_self _ _))
  · obtain ⟨hrest, hna⟩ := (splitAtFirst_eq_some_iff _ _ a b).mp hsplit
    simp only [splitN2, hsplit]
    rw [Bool.and_eq_true, decide_eq_true_eq, decide_eq_true_eq]
    constructor
    · rintro ⟨-, hb⟩
      exact ⟨a, hna, by rw [hrest, show b = dom from hb]⟩
    · rintro ⟨u, hnu, hrest'⟩
      have h2 : splitAtFirst '@' rest = some (u, dom) :=
        (splitAtFirst_eq_some_iff _ _ u dom).mpr ⟨hrest', hnu⟩
      rw [hsplit] at h2
      injection h2 with h3
      injection h3 with h4 hb
      exact ⟨rfl, show ([a, b] : List Str).getD 1 [] = dom from hb⟩

theorem isRFD_acct_eq (rest dom : Str) :
    isResourceForDomain (acctPfx ++ rest) dom =
      (decide ((splitN2 rest '@').length = 2) &&
        decide ((splitN2 rest '@').getD 1 [] = dom)) := by
  rw [isResourceForDomain, if_pos (self_isPrefixOf_append acctPfx rest),
    List.drop_left]

theorem isRFD_mailto_eq (rest dom : Str) :
    isResourceForDomain (mailtoPfx ++ rest) dom =
      (decide ((splitN2 rest '@').length = 2) &&
        decide ((splitN2 rest '@').getD 1 [] = dom)) := by
  rw [isResourceForDomain,
    if_neg (by rw [acctPfx_not_prefixOf_mailto rest]; exact Bool.false_ne_true),
    if_neg (by rw [httpsPfx_not_prefixOf_mailto rest]; exact Bool.false_ne_true),
    if_pos (self_isPrefixOf_append mailtoPfx rest), List.drop_left]

theorem isRFD_https_eq (rest dom : Str) :
    isResourceForDomain (httpsPfx ++ rest) dom = goContains rest dom := by
  rw [isResourceForDomain,
    if_neg (by rw [acctPfx_not_prefixOf_https rest]; exact Bool.false_ne_true),
    if_pos (self_isPrefixOf_append httpsPfx rest), List.drop_left]

theorem isRFD_other_eq (id dom : Str) (h1 : acctPfx.isPrefixOf id = false)
    (h2 : httpsPfx.isPrefixOf id = false) (h3 : mailtoPfx.isPrefixOf id = false) :
    isResourceForDomain id dom = goContains id dom := by
  rw [isResourceForDomain, if_neg (by rw [h1]; exact Bool.false_ne_true),
    if_neg (by rw [h2]; exact Bool.false_ne_true),
    if_neg (by rw [h3]; exact Bool.false_ne_true)]

/-- C3: for every identifier of the form `acct:` followed by `rest`, the
classifier accepts the domain iff `rest` contains an at sign and the part
after the first at sign equals the domain exactly (character for character,
no normalization); and the identical rule holds for `mailto:`. -/
theorem isResourceForDomain_acct_mailto_rule (rest dom : Str) :
    (isResourceForDomain (acctPfx ++ rest) dom = true ↔
      ∃ u, '@' ∉ u ∧ rest = u ++ '@' :: dom) ∧
    (isResourceForDomain (mailtoPfx ++ rest) dom = true ↔
      ∃ u, '@' ∉ u ∧ rest = u ++ '@' :: dom) := by
  constructor
  · rw [isRFD_acct_eq]
    exact splitCheck_iff rest dom
  · rw [isRFD_mailto_eq]
    exact splitCheck_iff rest dom

theorem isResourceForDomain_acct_mailto_rule_witness :
    isResourceForDomain (acctPfx ++ strLit "alice@example.com")
      (strLit "example.com") = true :=
  (isResourceForDomain_acct_mailto_rule (strLit "alice@example.com")
      (strLit "example.com")).1.mpr
    ⟨strLit "alice", by decide, by decide⟩

/-- C4: for every identifier of the form `https://` followed by `rest`, the
classifier accepts the domain iff the domain occurs anywhere as a contiguous
substring of `rest` (so `https://evil.com/example.com` matches domain
`example.com`); and for every identifier matching none of the three scheme
markers, it accepts iff the domain occurs anywhere in the whole identifier. -/
theorem isResourceForDomain_substring_rule (id rest dom : Str) :
    (id = httpsPfx ++ rest →
      (isResourceForDomain id dom = true ↔
        ∃ pre post, pre ++ dom ++ post = rest)) ∧
    (acctPfx.isPrefixOf id = false → httpsPfx.isPrefixOf id = false →
      mailtoPfx.isPrefixOf id = false →
      (isResourceForDomain id dom = true ↔
        ∃ pre post, pre ++ dom ++ post = id)) := by
  constructor
  · rintro rfl
    rw [isRFD_https_eq]
    exact goContains_iff_exists rest dom
  · intro h1 h2 h3
    rw [isRFD_other_eq id dom h1 h2 h3]
    exact goContains_iff_exists id dom

theorem isResourceForDomain_substring_rule_witness :
    isResourceForDomain (strLit "https://evil.com/example.com")
      (strLit "example.com") = true :=
  ((isResourceForDomain_substring_rule (strLit "https://evil.com/example.com")
      (strLit "evil.com/example.com") (strLit "example.com")).1
    (by decide)).mpr ⟨strLit "evil.com/", [], by decide⟩

/-- C1: a GET to the discovery path whose non-empty resource identifier the
Classifier rejects for the configured domain is forwarded to the next
handler when passthrough is enabled, and answered 404 when passthrough is
disabled, whatever the static resources table holds. -/
theorem ServeHTTP_domain_mismatch (w : WebFinger) (req : Request)
    (hpath : wkPath.isPrefixOf req.path = true)
    (hmethod : req.method = methodGet)
    (hres : queryGet req.query resourceKey ≠ [])
    (hdom : isResourceForDomain (queryGet req.query resourceKey) w.domain
      = false) :
    (w.passthrough = true → ServeHTTP w req = w.next req) ∧
    (w.passthrough = false →
      ServeHTTP w req = httpError (strLit "Resource not found") 404) := by
  constructor <;> intro hp <;>
    simp [ServeHTTP, hpath, hmethod, hres, hdom, hp]

theorem ServeHTTP_domain_mismatch_witness :
    ServeHTTP (mkWF false) (reqFor "acct:alice@otherdomain.com") =
      httpError (strLit "Resource not found") 404 :=
  (ServeHTTP_domain_mismatch (mkWF false) (reqFor "acct:alice@otherdomain.com")
    (by decide) (by decide) (by decide) (by decide)).2 (by decide)

/-- C5: a GET to the discovery path whose resource identifier the Classifier
accepts and which is, verbatim, a key of the static table is answered 200
with content type `application/jrd+json`, the body being the serialization
of exactly the descriptor stored under that key. -/
theorem ServeHTTP_static_hit (w : WebFinger) (req : Request)
    (resp : WebFingerResponse)
    (hpath : wkPath.isPrefixOf req.path = true)
    (hmethod : req.method = methodGet)
    (hres : queryGet req.query resourceKey ≠ [])
    (hdom : isResourceForDomain (queryGet req.query resourceKey) w.domain
      = true)
    (hfind : resFind w.resources (queryGet req.query resourceKey)
      = some resp) :
    ServeHTTP w req =
      { status := 200, headers := [(contentTypeKey, jrdContentType)],
        body := Body.jrd resp } := by
  simp [ServeHTTP, hpath, hmethod, hres, hdom, hfind]

theorem ServeHTTP_static_hit_witness :
    ServeHTTP (mkWF false) (reqFor "acct:alice@example.com") =
      { status := 200, headers := [(contentTypeKey, jrdContentType)],
        body := Body.jrd descAlice } ∧
    descAlice.subject = aliceKey ∧ descAlice.links.length = 2 ∧
    descAlice.links = [linkProfile, linkSelf] :=
  ⟨ServeHTTP_static_hit (mkWF false) (reqFor "acct:alice@example.com")
      descAlice (by decide) (by decide) (by decide) (by decide) (by decide),
    rfl, rfl, rfl⟩

/-- C6: a request whose path does not begin with `/.well-known/webfinger` is
forwarded unmodified to the next handler, whose response is returned; the
middleware writes nothing itself. -/
theorem ServeHTTP_other_path_forward (w : WebFinger) (req : Request)
    (hpath : wkPath.isPrefixOf req.path = false) :
    ServeHTTP w req = w.next req := by
  simp [ServeHTTP, hpath]

theorem ServeHTTP_other_path_forward_witness :
    ServeHTTP (mkWF false) reqOther = (mkWF false).next reqOther :=
  ServeHTTP_other_path_forward (mkWF false) reqOther (by decide)

/-- C7: a non-GET request to the discovery path is answered 405, for every
configuration and every query, with a reply that does not depend on the next
handler. -/
theorem ServeHTTP_method_not_allowed (w : WebFinger) (req : Request)
    (hpath : wkPath.isPrefixOf req.path = true)
    (hmethod : req.method ≠ methodGet) :
    ServeHTTP w req = httpError (strLit "Method not allowed") 405 := by
  simp [ServeHTTP, hpath, hmethod]

theorem ServeHTTP_method_not_allowed_witness :
    ServeHTTP (mkWF true) reqPost = httpError (strLit "Method not allowed") 405 :=
  ServeHTTP_method_not_allowed (mkWF true) reqPost (by decide) (by decide)

/-- C8: a GET to the discovery path with an absent or empty resource
parameter is answered 400, for every configuration, without reaching the
Classifier or the table. -/
theorem ServeHTTP_missing_resource (w : WebFinger) (req : Request)
    (hpath : wkPath.isPrefixOf req.path = true)
    (hmethod : req.method = methodGet)
    (hq : queryGet req.query resourceKey = []) :
    ServeHTTP w req = httpError (strLit "Resource parameter is required") 400 := by
  simp [ServeHTTP, hpath, hmethod, hq]

theorem ServeHTTP_missing_resource_witness :
    ServeHTTP (mkWF false) reqNoResource =
      httpError (strLit "Resource parameter is required") 400 :=
  ServeHTTP_missing_resource (mkWF false) reqNoResource
    (by decide) (by decide) (by decide)

/-- C9: a GET to the discovery path whose resource identifier the Classifier
accepts but which is not a key of the static table is forwarded to the next
handler (whose response is returned verbatim) when passthrough is enabled,
and answered 404 when passthrough is disabled. -/
theorem ServeHTTP_unmatched_resource (w : WebFinger) (req : Request)
    (hpath : wkPath.isPrefixOf req.path = true)
    (hmethod : req.method = methodGet)
    (hres : queryGet req.query resourceKey ≠ [])
    (hdom : isResourceForDomain (queryGet req.query resourceKey) w.domain
      = true)
    (hfind : resFind w.resources (queryGet req.query resourceKey) = none) :
    (w.passthrough = true → ServeHTTP w req = w.next req) ∧
    (w.passthrough = false →
      ServeHTTP w req = httpError (strLit "Resource not found") 404) := by
  constructor <;> intro hp <;>
    simp [ServeHTTP, hpath, hmethod, hres, hdom, hfind, hp]

theorem ServeHTTP_unmatched_resource_witness :
    ServeHTTP (mkWF true) (reqFor "acct:unknown@example.com") =
      (mkWF true).next (reqFor "acct:unknown@example.com") ∧
    (mkWF true).next (reqFor "acct:unknown@example.com") =
      { status := 200,
        headers := [(contentTypeKey, strLit "application/json")],
        body := Body.text (strLit "\x7b\"message\":\"backend response\"\x7d") } :=
  ⟨(ServeHTTP_unmatched_resource (mkWF true) (reqFor "acct:unknown@example.com")
      (by decide) (by decide) (by decide) (by decide) (by decide)).1 (by decide),
    rfl⟩

/-- C10: normalizeResource is the identity, the lookup key of the handler is
therefore the caller-supplied identifier itself, and the table lookup is
exact equality of identifiers, so an identifier differing from a configured
key (for instance only in letter case) never selects that entry. -/
theorem normalizeResource_identity_exact_lookup (s t : Str)
    (d : WebFingerResponse) (tbl : List (Str × WebFingerResponse)) :
    normalizeResource s = s ∧
    resFind tbl (normalizeResource s) = resFind tbl s ∧
    (s ≠ t → resFind [(t, d)] s = none) := by
  refine ⟨rfl, rfl, fun hne => ?_⟩
  simp [resFind, Ne.symm hne]

theorem normalizeResource_identity_exact_lookup_witness :
    normalizeResource (strLit "acct:Alice@example.com") =
      strLit "acct:Alice@example.com" ∧
    resFind [(aliceKey, descAlice)]
        (normalizeResource (strLit "acct:Alice@example.com")) =
      resFind [(aliceKey, descAlice)] (strLit "acct:Alice@example.com") ∧
    (strLit "acct:Alice@example.com" ≠ aliceKey →
      resFind [(aliceKey, descAlice)] (strLit "acct:Alice@example.com") = none) :=
  normalizeResource_identity_exact_lookup
    (strLit "acct:Alice@example.com") aliceKey descAlice
    [(aliceKey, descAlice)]

theorem bool_eq_false_of_not_true {b : Bool} (h : ¬(b = true)) : b = false := by
  cases b
  · rfl
  · exact absurd rfl h

theorem validateResources_cons_ok (dom resource : Str)
    (response : WebFingerResponse) (rest : List (Str × WebFingerResponse))
    (h1 : isResourceForDomain resource dom = true)
    (h2 : response.subject ≠ [])
    (h3 : response.links.any (fun l => l.rel.isEmpty) = false) :
    validateResources dom ((resource, response) :: rest) =
      validateResources dom rest := by
  simp [validateResources, h1, h2, h3]

theorem validateResources_eq_none_iff (dom : Str)
    (l : List (Str × WebFingerResponse)) :
    validateResources dom l = none ↔
      ∀ p ∈ l, isResourceForDomain p.1 dom = true ∧ p.2.subject ≠ [] ∧
        ∀ lnk ∈ p.2.links, lnk.rel ≠ [] := by
  induction l with
  | nil => simp [validateResources]
  | cons p rest ih =>
    obtain ⟨resource, response⟩ := p
    cases h1 : isResourceForDomain resource dom with
    | false =>
      constructor
      · intro hnone
        simp [validateResources, h1] at hnone
      · intro hall
        have hmem := (hall (resource, response) (List.mem_cons_self _ _)).1
        rw [h1] at hmem
        exact absurd hmem (by decide)
    | true =>
      by_cases h2 : response.subject = []
      · constructor
        · intro hnone
          simp [validateResources, h1, h2] at hnone
        · intro hall
          exact absurd h2
            (hall (resource, response) (List.mem_cons_self _ _)).2.1
      · by_cases h3 : response.links.any (fun l => l.rel.isEmpty) = true
        · constructor
          · intro hnone
            simp [validateResources, h1, h2, h3] at hnone
          · intro hall
            obtain ⟨lnk, hmem, hrel⟩ := List.any_eq_true.mp h3
            exact absurd (List.isEmpty_iff.mp hrel)
              ((hall (resource, response) (List.mem_cons_self _ _)).2.2
                lnk hmem)
        · have h3' := bool_eq_false_of_not_true h3
          rw [validateResources_cons_ok dom resource response rest h1 h2 h3', ih]
          constructor
          · intro hrest q hq
            rcases List.mem_cons.mp hq with rfl | hq'
            · refine ⟨h1, h2, ?_⟩
              intro lnk hlnk hrelnil
              have hany : response.links.any (fun l => l.rel.isEmpty) = true :=
                List.any_eq_true.mpr ⟨lnk, hlnk, by simp [hrelnil]⟩
              exact absurd hany h3
            · exact hrest q hq'
          · intro hall q hq
            exact hall q (List.mem_cons.mpr (Or.inr hq))

theorem validateResources_eq_some_sound (dom : Str)
    (l : List (Str × WebFingerResponse)) (e : ConfigError)
    (h : validateResources dom l = some e) :
    ∃ r d, (r, d) ∈ l ∧
      ((e = ConfigError.resourceDomainMismatch r ∧
          isResourceForDomain r dom = false) ∨
       (e = ConfigError.missingSubject r ∧ d.subject = []) ∨
       (e = ConfigError.missingRel r ∧ ∃ lnk ∈ d.links, lnk.rel = [])) := by
  induction l with
  | nil => simp [validateResources] at h
  | cons p rest ih =>
    obtain ⟨resource, response⟩ := p
    cases h1 : isResourceForDomain resource dom with
    | false =>
      have he : ConfigError.resourceDomainMismatch resource = e := by
        simpa [validateResources, h1] using h
      exact ⟨resource, response, List.mem_cons_self _ _,
        Or.inl ⟨he.symm, h1⟩⟩
    | true =>
      by_cases h2 : response.subject = []
      · have he : ConfigError.missingSubject resource = e := by
          simpa [validateResources, h1, h2] using h
        exact ⟨resource, response, List.mem_cons_self _ _,
          Or.inr (Or.inl ⟨he.symm, h2⟩)⟩
      · by_cases h3 : response.links.any (fun l => l.rel.isEmpty) = true
        · have he : ConfigError.missingRel resource = e := by
            simpa [validateResources, h1, h2, h3] using h
          obtain ⟨lnk, hmem, hrel⟩ := List.any_eq_true.mp h3
          exact ⟨resource, response, List.mem_cons_self _ _,
            Or.inr (Or.inr ⟨he.symm, lnk, hmem, List.isEmpty_iff.mp hrel⟩)⟩
        · have h3' := bool_eq_false_of_not_true h3
          rw [validateResources_cons_ok dom resource response rest h1 h2 h3']
            at h
          obtain ⟨r, d, hmem, hcase⟩ := ih h
          exact ⟨r, d, List.mem_cons.mpr (Or.inr hmem), hcase⟩

/-- C2: New fails exactly when the domain is empty, some resource key is
rejected by the Classifier for the domain, some descriptor has an empty
subject, or some link has an empty rel; an empty domain yields the
missing-domain error; on success the stored handler carries the
configuration unchanged. -/
theorem New_error_characterization (next : Request → Response)
    (config : Config) (name : Str) :
    ((∃ e, New next config name = Except.error e) ↔
      (config.domain = [] ∨
        ∃ p ∈ config.resources,
          isResourceForDomain p.1 config.domain = false ∨ p.2.subject = [] ∨
            ∃ lnk ∈ p.2.links, lnk.rel = [])) ∧
    (config.domain = [] →
      New next config name = Except.error ConfigError.missingDomain) ∧
    (∀ w, New next config name = Except.ok w →
      w.next = next ∧ w.name = name ∧ w.domain = config.domain ∧
        w.resources = config.resources ∧
        w.passthrough = config.passthrough) := by
  by_cases hd : config.domain = []
  · refine ⟨⟨fun _ => Or.inl hd, fun _ => ⟨ConfigError.missingDomain, by simp [New, hd]⟩⟩,
      fun _ => by simp [New, hd], ?_⟩
    intro w hok
    rw [New, if_pos hd] at hok
    exact absurd hok (by simp)
  · rcases hv : validateResources config.domain config.resources with _ | e
    · have hok : New next config name =
          Except.ok ⟨next, name, config.domain, config.resources,
            config.passthrough⟩ := by
        simp [New, hd, hv]
      refine ⟨⟨?_, ?_⟩, fun h => absurd h hd, ?_⟩
      · rintro ⟨e, he⟩
        rw [hok] at he
        exact absurd he (by simp)
      · rintro (h | ⟨p, hp, hbad⟩)
        · exact absurd h hd
        · have hall := (validateResources_eq_none_iff _ _).mp hv p hp
          rcases hbad with hb | hb | ⟨lnk, hlnk, hrel⟩
          · rw [hall.1] at hb
            exact absurd hb (by decide)
          · exact absurd hb hall.2.1
          · exact absurd hrel (hall.2.2 lnk hlnk)
      · intro w hw
        rw [hok] at hw
        injection hw with hw'
        subst hw'
        exact ⟨rfl, rfl, rfl, rfl, rfl⟩
    · have herr : New next config name = Except.error e := by
        simp [New, hd, hv]
      refine ⟨⟨?_, fun _ => ⟨e, herr⟩⟩, fun h => absurd h hd, ?_⟩
      · intro _
        right
        obtain ⟨r, d, hmem, hcase⟩ :=
          validateResources_eq_some_sound _ _ _ hv
        refine ⟨(r, d), hmem, ?_⟩
        rcases hcase with ⟨-, hb⟩ | ⟨-, hb⟩ | ⟨-, lnk, hlnk, hrel⟩
        · exact Or.inl hb
        · exact Or.inr (Or.inl hb)
        · exact Or.inr (Or.inr ⟨lnk, hlnk, hrel⟩)
      · intro w hw
        rw [herr] at hw
        exact absurd hw (by simp)

theorem New_error_characterization_witness :
    wValid.next = backendNext ∧ wValid.name = strLit "test" ∧
    wValid.domain = cfgValid.domain ∧ wValid.resources = cfgValid.resources ∧
    wValid.passthrough = cfgValid.passthrough :=
  (New_error_characterization backendNext cfgValid (strLit "test")).2.2
    wValid rfl
